import Mathlib

/-!
Verification of the TD-MPC2 agent core (`demo3/tdmpc2.py`).

The Python code is a batched tensor program; every tensor operation used by
the planner, the value estimator and the TD-target computation acts
elementwise over the batch dimension, so the embedding models one batch
element at a time.  Machine floats are modelled by exact rationals `ℚ`
(the spec fixes behaviour only up to floating-point error); the two float
primitives whose values the claims never depend on (`exp` in the softmax
and `sqrt` in the std update) are carried as opaque-to-the-claims function
fields of the model record, and the float-special values NaN/±Inf are
modelled explicitly by the `FVal` type where the code inspects them
(`Tensor.nan_to_num`).  The neural world model (encoder, dynamics, reward
head, Q-ensemble, policy head) lives outside this file's repository slice
and is treated as the spec treats it: a black-box capability record `WM`.
Sampling primitives (`torch.randn`, the policy's action draw, the final
Gumbel draw) are modelled as explicit random-stream arguments, matching the
spec's "deterministic given a fixed random stream".
-/

namespace Demo3

/-- Query mode of the Q-ensemble: `return_type="avg" | "min" | "all"` in the
Python call sites. -/
inductive QMode where
  | avg
  | min
  | all
deriving DecidableEq

/-- A float32 value as inspected by `Tensor.nan_to_num`: finite, ±infinity
or NaN. -/
inductive FVal where
  | fin (q : ℚ)
  | posinf
  | neginf
  | nan
deriving DecidableEq

/-- Largest finite float32 value, `2^128 - 2^104`; `torch.nan_to_num`
substitutes it for `+inf` when no explicit `posinf` replacement is given. -/
def floatMax : ℚ := 340282346638528859811704183484516925440

/-- Embeds `Tensor.nan_to_num(nan_repl)` on one element: NaN becomes `nan_repl`,
`+inf` becomes the largest finite value, `-inf` its negative, finite values
pass through (torch defaults `posinf=None`, `neginf=None`). -/
def nan_to_num (nan_repl : ℚ) : FVal → ℚ
  | .fin q => q
  | .posinf => floatMax
  | .neginf => -floatMax
  | .nan => nan_repl

/-- Embeds `torch.clamp(x, lo, hi)` on one element. -/
def clampQ (x lo hi : ℚ) : ℚ := min (max x lo) hi

/-- An action, indexed by action dimension. -/
abbrev Act := ℕ → ℚ

/-- The configuration fields of `cfg` consumed by the embedded code. -/
structure Cfg where
  horizon : ℕ
  num_samples : ℕ
  num_pi_trajs : ℕ
  num_elites : ℕ
  iterations : ℕ
  action_dim : ℕ
  min_std : ℚ
  max_std : ℚ
  temperature : ℚ
  multitask : Bool
  mpc : Bool
  discount_hardcoded : ℚ
  discount_denom : ℚ
  discount_min : ℚ
  discount_max : ℚ
  episode_length : ℚ
  episode_lengths : ℕ → ℚ

/-- The WorldModel capability set, as consumed by this core (spec §2): all
operations take the task index like the Python call sites do.  `piMean` and
`piS` are `model.pi(z, task)[0]` and `[1]`; the draw of `piS` is indexed by
its slot in the random stream (batch element / particle).  `expQ` and
`sqrtQ` stand for the float `exp`/`sqrt` primitives, and `action_masks` is
`model._action_masks[task][d]`. -/
structure WM (O Z : Type) where
  encode : O → ℕ → Z
  next : Z → Act → ℕ → Z
  rewardD : Z → Act → ℕ → ℚ
  Q : Z → Act → ℕ → QMode → Bool → ℚ
  piMean : Z → ℕ → Act
  piS : ℕ → Z → ℕ → Act
  action_masks : ℕ → ℕ → ℚ
  expQ : ℚ → ℚ
  sqrtQ : ℚ → ℚ

/-- Embeds `TDMPC2._get_discount(episode_length)`. -/
def get_discount (cfg : Cfg) (episode_length : ℚ) : ℚ :=
  if cfg.discount_hardcoded ≠ 0 then cfg.discount_hardcoded
  else
    min (max ((episode_length / cfg.discount_denom - 1) /
      (episode_length / cfg.discount_denom)) cfg.discount_min) cfg.discount_max

/-- Embeds `self.discount` in the multitask branch of `__init__`: one discount per
task, computed at construction from the per-task episode length. -/
def discount_of (cfg : Cfg) : ℕ → ℚ := fun i => get_discount cfg (cfg.episode_lengths i)

/-- Embeds `self.discount` in the single-task branch of `__init__`. -/
def discount_single (cfg : Cfg) : ℚ := get_discount cfg cfg.episode_length

/-- The per-step discount factor used inside `_estimate_value` and
`_td_target`: `self.discount[task] if multitask else self.discount`. -/
def discount_for (cfg : Cfg) (task : ℕ) : ℚ :=
  if cfg.multitask then discount_of cfg task else discount_single cfg

/-- State of the loop in `_estimate_value` after `t` steps:
`(G, discount_acc, z)`.  Each step decodes the reward at the pre-transition
latent, advances the latent, accumulates `G += discount_acc * reward`, then
updates `discount_acc *= discount`. -/
def ev_aux (cfg : Cfg) (m : WM O Z) (task : ℕ) (z : Z) (acts : ℕ → Act) :
    ℕ → ℚ × ℚ × Z
  | 0 => (0, 1, z)
  | t + 1 =>
    let s := ev_aux cfg m task z acts t
    let reward := m.rewardD s.2.2 (acts t) task
    let z2 := m.next s.2.2 (acts t) task
    (s.1 + s.2.1 * reward, s.2.1 * discount_for cfg task, z2)

/-- Embeds `TDMPC2._estimate_value(z, actions, task)` for one candidate; `j` is the
candidate's slot in the random stream, used for the bootstrap policy draw
(`self.model.pi(z, task)[1]`). -/
def estimate_value (cfg : Cfg) (m : WM O Z) (task j : ℕ) (z : Z)
    (acts : ℕ → Act) : ℚ :=
  let s := ev_aux cfg m task z acts cfg.horizon
  s.1 + s.2.1 * m.Q s.2.2 (m.piS j s.2.2 task) task QMode.avg false

/-- Latent reached after `t` steps of `model.next` along an action sequence;
used to state the closed form of `_estimate_value`. -/
def rollout (m : WM O Z) (task : ℕ) (z : Z) (acts : ℕ → Act) : ℕ → Z
  | 0 => z
  | t + 1 => m.next (rollout m task z acts t) (acts t) task

/-- Embeds `TDMPC2._td_target(next_z, reward, task)`: bootstraps with the minimum
over the critic ensemble of the target critic network (`return_type="min"`,
`target=True`); `j` indexes the policy draw in the random stream. -/
def td_target (cfg : Cfg) (m : WM O Z) (task j : ℕ) (next_z : Z)
    (reward : ℚ) : ℚ :=
  let pi := m.piS j next_z task
  reward + discount_for cfg task * m.Q next_z pi task QMode.min true

/-- The `1e-9` denominator guard of the mean/std refit in `_plan`. -/
def eps_denom : ℚ := 1 / 1000000000

/-- Mutable loop state of `_plan` for one batch element: the Gaussian
parameters `mean`/`std` (time, dim), the candidate `actions` buffer
(time, sample, dim), and the `score`/`elite_actions` of the most recent
iteration (read again after the loop). -/
structure PlanState where
  mean : ℕ → ℕ → ℚ
  std : ℕ → ℕ → ℚ
  actions : ℕ → ℕ → ℕ → ℚ
  score : ℕ → ℚ
  elite_actions : ℕ → ℕ → ℕ → ℚ

/-- Latent of policy-seeded particle `j` after `t` policy steps from the
encoded observation (`_z` in the seeding loop of `_plan`). -/
def pi_z (m : WM O Z) (task j : ℕ) (z0 : Z) : ℕ → Z
  | 0 => z0
  | t + 1 => m.next (pi_z m task j z0 t) (m.piS j (pi_z m task j z0 t) task) task

/-- Embeds `pi_actions[:, t]` of particle `j`: the policy draw at that particle's
rolled latent. -/
def pi_acts (m : WM O Z) (task j : ℕ) (z0 : Z) (t : ℕ) : Act :=
  m.piS j (pi_z m task j z0 t) task

/-- The `mean` initialization of `_plan`: zeros, and when `t0` is false the
one-step time-shift warm start `mean[:-1] = prev_mean[1:]` (the last
timestep stays zero). -/
def init_mean (cfg : Cfg) (t0 : Bool) (prev : ℕ → ℕ → ℚ) : ℕ → ℕ → ℚ :=
  fun t d => if t0 = false ∧ t < cfg.horizon - 1 then prev (t + 1) d else 0

/-- Loop state on entry to the first MPPI iteration: warm-started `mean`,
`std` at `max_std`, the policy-seeded slots of `actions` filled (the rest
of the buffer is uninitialized `torch.empty` memory, modelled as zeros; it
is overwritten before being read), and `score`/`elite_actions` not yet
assigned (also modelled as zeros; reading them before an iteration would be
a Python `NameError`). -/
def init_state (cfg : Cfg) (m : WM O Z) (task : ℕ) (t0 : Bool)
    (prev : ℕ → ℕ → ℚ) (z1 : Z) : PlanState where
  mean := init_mean cfg t0 prev
  std := fun _ _ => cfg.max_std
  actions := fun t j d => if j < cfg.num_pi_trajs then pi_acts m task j z1 t d else 0
  score := fun _ => 0
  elite_actions := fun _ _ _ => 0

/-- Index of the largest value of `f` in a pool of candidate indices
(earliest index on ties). -/
def argmax_in (f : ℕ → ℚ) : List ℕ → Option ℕ
  | [] => none
  | j :: rest =>
    match argmax_in f rest with
    | none => some j
    | some k => if f j < f k then some k else some j

/-- Greedy top-`k` selection from a pool of indices, largest value first. -/
def topk_go (f : ℕ → ℚ) : ℕ → List ℕ → List ℕ
  | 0, _ => []
  | k + 1, pool =>
    match argmax_in f pool with
    | none => []
    | some j => j :: topk_go f k (pool.erase j)

/-- Embeds `torch.topk(value, k).indices` over sample indices `0..n-1` (descending;
tie order inside `topk` is not fixed by the spec, any consistent order is a
faithful refinement). -/
def topk_idxs (f : ℕ → ℚ) (n k : ℕ) : List ℕ := topk_go f k (List.range n)

/-- One iteration's freshly assembled candidate buffer, before masking: the
first `num_pi_trajs` slots keep the policy-seeded actions already in the
buffer, the rest are `mean + std * r` clamped to `[-1, 1]`
(`actions[:, :, num_pi_trajs:] = actions_sample`). -/
def merge_actions (cfg : Cfg) (s : PlanState) (noise : ℕ → ℕ → ℕ → ℚ) :
    ℕ → ℕ → ℕ → ℚ :=
  fun t j d =>
    if j < cfg.num_pi_trajs then s.actions t j d
    else clampQ (s.mean t d + s.std t d * noise t (j - cfg.num_pi_trajs) d) (-1) 1

/-- The multitask action mask applied to a (time, sample, dim) buffer:
`actions = actions * self.model._action_masks[task]` when multitask. -/
def masked3 (cfg : Cfg) (m : WM O Z) (task : ℕ) (f : ℕ → ℕ → ℕ → ℚ) :
    ℕ → ℕ → ℕ → ℚ :=
  if cfg.multitask then fun t j d => f t j d * m.action_masks task d else f

/-- The multitask action mask applied to a (time, dim) buffer (`mean` and
`std` re-masking at the end of an iteration). -/
def masked2 (cfg : Cfg) (m : WM O Z) (task : ℕ) (f : ℕ → ℕ → ℚ) :
    ℕ → ℕ → ℚ :=
  if cfg.multitask then fun t d => f t d * m.action_masks task d else f

/-- Per-candidate values entering elite selection:
`self._estimate_value(z, actions, task).nan_to_num(0)`.  In the exact
arithmetic of this embedding the estimate is always the finite `FVal.fin`
case; the NaN/±Inf cases of `nan_to_num` capture what the float code does
to degenerate rollouts. -/
def cand_value (cfg : Cfg) (m : WM O Z) (task : ℕ) (z : Z)
    (acts : ℕ → ℕ → ℕ → ℚ) : ℕ → ℚ :=
  fun j => nan_to_num 0 (FVal.fin (estimate_value cfg m task j z (fun t => acts t j)))

/-- Sample index of elite slot `e` (`elite_idxs` from `torch.topk`). -/
def elite_index (cfg : Cfg) (value : ℕ → ℚ) (e : ℕ) : ℕ :=
  (topk_idxs value cfg.num_samples cfg.num_elites).getD e 0

/-- Embeds `elite_value.max(1).values` for one batch element. -/
def max_val (cfg : Cfg) (ev : ℕ → ℚ) : ℚ :=
  ((List.range cfg.num_elites).map ev).foldl max (ev 0)

/-- Unnormalized softmax weight of elite `e`:
`exp(temperature * (elite_value - max_value))`. -/
def softmax_raw (cfg : Cfg) (m : WM O Z) (ev : ℕ → ℚ) : ℕ → ℚ :=
  fun e => m.expQ (cfg.temperature * (ev e - max_val cfg ev))

/-- Normalized elite score: `score = score / score.sum(1)`. -/
def norm_score (cfg : Cfg) (m : WM O Z) (ev : ℕ → ℚ) : ℕ → ℚ :=
  fun e => softmax_raw cfg m ev e /
    ∑ e2 ∈ Finset.range cfg.num_elites, softmax_raw cfg m ev e2

/-- The sum `score.sum(1)` of the normalized score, as recomputed in the mean/std
refit denominators. -/
def wsum (cfg : Cfg) (score : ℕ → ℚ) : ℚ :=
  ∑ e ∈ Finset.range cfg.num_elites, score e

/-- The refit mean: `(score * elite_actions).sum(2) / (score.sum(1) + 1e-9)`. -/
def new_mean (cfg : Cfg) (score : ℕ → ℚ) (ea : ℕ → ℕ → ℕ → ℚ) :
    ℕ → ℕ → ℚ :=
  fun t d => (∑ e ∈ Finset.range cfg.num_elites, score e * ea t e d) /
    (wsum cfg score + eps_denom)

/-- The refit std: square root of the score-weighted second moment about the
refit mean, clamped to `[min_std, max_std]`. -/
def new_std (cfg : Cfg) (m : WM O Z) (score : ℕ → ℚ) (ea : ℕ → ℕ → ℕ → ℚ) :
    ℕ → ℕ → ℚ :=
  fun t d =>
    clampQ (m.sqrtQ ((∑ e ∈ Finset.range cfg.num_elites,
        score e * (ea t e d - new_mean cfg score ea t d) ^ 2) /
      (wsum cfg score + eps_denom)))
      cfg.min_std cfg.max_std

/-- One MPPI iteration of `_plan` (lines 269-317): sample and merge
candidates, mask, value and rank them, refit `mean`/`std` from the elite
softmax, clamp the std, and re-mask. -/
def plan_iter (cfg : Cfg) (m : WM O Z) (task : ℕ) (z1 : Z)
    (noise : ℕ → ℕ → ℕ → ℚ) (s : PlanState) : PlanState :=
  let acts := masked3 cfg m task (merge_actions cfg s noise)
  let value := cand_value cfg m task z1 acts
  let ev := fun e => value (elite_index cfg value e)
  let ea := fun t e d => acts t (elite_index cfg value e) d
  let score := norm_score cfg m ev
  { mean := masked2 cfg m task (new_mean cfg score ea)
    std := masked2 cfg m task (new_std cfg m score ea)
    actions := acts
    score := score
    elite_actions := ea }

/-- The `iterations`-fold repetition of the MPPI iteration, with a fresh noise
slice per iteration. -/
def plan_loop (cfg : Cfg) (m : WM O Z) (task : ℕ) (z1 : Z)
    (noise : ℕ → ℕ → ℕ → ℕ → ℚ) : ℕ → PlanState → PlanState
  | 0, s => s
  | i + 1, s => plan_iter cfg m task z1 (noise i) (plan_loop cfg m task z1 noise i s)

/-- Result of one `_plan` call: the returned action and the value written
into the `self._prev_mean` buffer. -/
structure PlanOut where
  a : Act
  prev_mean : ℕ → ℕ → ℚ

/-- Embeds `TDMPC2._plan(obs, t0, eval_mode, task)` for one batch element.
`noise` is the `torch.randn` stream of the loop (iteration, time, sample,
dim), `rand_idx` the Gumbel-softmax draw over elite slots, `expl_noise` the
final exploration draw.  Takes the previous `self._prev_mean` explicitly
and returns the new one (`self._prev_mean.copy_(mean)`). -/
def plan (cfg : Cfg) (m : WM O Z) (task : ℕ) (obs : O) (t0 eval_mode : Bool)
    (prev : ℕ → ℕ → ℚ) (noise : ℕ → ℕ → ℕ → ℕ → ℚ) (rand_idx : ℕ)
    (expl_noise : ℕ → ℚ) : PlanOut :=
  let z1 := m.encode obs task
  let sf := plan_loop cfg m task z1 noise cfg.iterations
    (init_state cfg m task t0 prev z1)
  let a0 := fun d => sf.elite_actions 0 rand_idx d
  let a1 := if eval_mode then a0 else fun d => a0 d + sf.std 0 d * expl_noise d
  { a := fun d => clampQ (a1 d) (-1) 1
    prev_mean := sf.mean }

/-- Materialize a dim-indexed action as a tensor row of shape
`(action_dim,)`. -/
def action_list (cfg : Cfg) (a : Act) : List ℚ :=
  (List.range cfg.action_dim).map a

/-- Embeds `TDMPC2.act(obs, t0, eval_mode, task)` on a batch of observations: with
`cfg.mpc` the planner runs (batched, one action per batch element); without
it the code computes the batched policy output and returns its element
`[0]` only. -/
def act (cfg : Cfg) (m : WM O Z) (task : ℕ) (obs : List O)
    (t0 eval_mode : Bool) (prev : ℕ → ℕ → ℚ) (noise : ℕ → ℕ → ℕ → ℕ → ℚ)
    (rand_idx : ℕ) (expl_noise : ℕ → ℚ) : List (List ℚ) ⊕ List ℚ :=
  if cfg.mpc then
    Sum.inl (obs.map fun o =>
      action_list cfg (plan cfg m task o t0 eval_mode prev noise rand_idx expl_noise).a)
  else
    Sum.inr ((obs.map fun o =>
      action_list cfg (if eval_mode then m.piMean (m.encode o task) task
        else m.piS 0 (m.encode o task) task)).getD 0 [])

/-! Helper lemmas about clamping and weighted sums. -/

theorem clampQ_le_right (x lo hi : ℚ) : clampQ x lo hi ≤ hi := min_le_right _ _

theorem left_le_clampQ (x lo hi : ℚ) (h : lo ≤ hi) : lo ≤ clampQ x lo hi :=
  le_min (le_max_right _ _) h

theorem clampQ_mono (x y lo hi : ℚ) (h : x ≤ y) : clampQ x lo hi ≤ clampQ y lo hi :=
  min_le_min (max_le_max h le_rfl) le_rfl

theorem clampQ_sub_le (a b lo hi : ℚ) (h : b ≤ a) :
    clampQ a lo hi - clampQ b lo hi ≤ a - b := by
  simp only [clampQ, min_def, max_def]
  split_ifs <;> linarith

theorem sum_weight_le (n : ℕ) (w a : ℕ → ℚ) (M : ℚ)
    (hw : ∀ e ∈ Finset.range n, 0 ≤ w e)
    (hs : ∑ e ∈ Finset.range n, w e = 1)
    (hM : ∀ e ∈ Finset.range n, a e ≤ M) :
    ∑ e ∈ Finset.range n, w e * a e ≤ M := by
  calc ∑ e ∈ Finset.range n, w e * a e
      ≤ ∑ e ∈ Finset.range n, w e * M :=
        Finset.sum_le_sum fun e he => mul_le_mul_of_nonneg_left (hM e he) (hw e he)
    _ = (∑ e ∈ Finset.range n, w e) * M := (Finset.sum_mul _ _ _).symm
    _ = M := by rw [hs, one_mul]

theorem le_sum_weight (n : ℕ) (w a : ℕ → ℚ) (M : ℚ)
    (hw : ∀ e ∈ Finset.range n, 0 ≤ w e)
    (hs : ∑ e ∈ Finset.range n, w e = 1)
    (hM : ∀ e ∈ Finset.range n, M ≤ a e) :
    M ≤ ∑ e ∈ Finset.range n, w e * a e := by
  calc M = (∑ e ∈ Finset.range n, w e) * M := by rw [hs, one_mul]
    _ = ∑ e ∈ Finset.range n, w e * M := Finset.sum_mul _ _ _
    _ ≤ ∑ e ∈ Finset.range n, w e * a e :=
        Finset.sum_le_sum fun e he => mul_le_mul_of_nonneg_left (hM e he) (hw e he)

/-! Concrete instances used to instantiate theorems at evaluable inputs. -/

/-- A small concrete configuration. -/
def cfg0 : Cfg where
  horizon := 1
  num_samples := 1
  num_pi_trajs := 0
  num_elites := 1
  iterations := 1
  action_dim := 1
  min_std := 0
  max_std := 1
  temperature := 1 / 2
  multitask := false
  mpc := true
  discount_hardcoded := 0
  discount_denom := 5
  discount_min := 9 / 10
  discount_max := 99 / 100
  episode_length := 500
  episode_lengths := fun _ => 500

/-- A trivial concrete world model over unit observation and latent types. -/
def wm0 : WM Unit Unit where
  encode := fun _ _ => ()
  next := fun _ _ _ => ()
  rewardD := fun _ _ _ => 0
  Q := fun _ _ _ _ _ => 0
  piMean := fun _ _ _ => 0
  piS := fun _ _ _ _ => 0
  action_masks := fun _ _ => 1
  expQ := fun _ => 1
  sqrtQ := fun x => x

variable {O Z : Type}

/-! Claims. -/

/-- Claim C3, counterexample: the code replaces a `+inf` value estimate by
the largest finite float, not by zero, so a value entering elite selection
can be neither the finite estimate nor exactly zero. -/
theorem c3_counterexample :
    nan_to_num 0 FVal.posinf = floatMax ∧ nan_to_num 0 FVal.posinf ≠ 0 := by
  constructor
  · rfl
  · rw [nan_to_num]
    norm_num [floatMax]

/-- Claim C3 (amended): `value = _estimate_value(...).nan_to_num(0)` maps a
NaN estimate to zero, a `+inf` estimate to the largest finite float, a
`-inf` estimate to its negative, and passes finite estimates through
unchanged, so the values entering top-k elite selection are always finite;
in particular the candidate values of the planner's exact-arithmetic path
are exactly the estimates. -/
theorem c3_nan_to_num :
    (∀ q : ℚ, nan_to_num 0 (FVal.fin q) = q) ∧
    nan_to_num 0 FVal.nan = 0 ∧
    nan_to_num 0 FVal.posinf = floatMax ∧
    nan_to_num 0 FVal.neginf = -floatMax ∧
    ∀ (cfg : Cfg) (m : WM O Z) (task : ℕ) (z : Z) (acts : ℕ → ℕ → ℕ → ℚ) (j : ℕ),
      cand_value cfg m task z acts j =
        estimate_value cfg m task j z fun t => acts t j := by
  exact ⟨fun _ => rfl, rfl, rfl, rfl, fun _ _ _ _ _ _ => rfl⟩

/-- Claim C6: `_td_target` returns
`reward + discount * Q(next_z, pi(next_z), return_type="min", target=True)`
with the per-task discount in multitask mode, and when that discount is
zero the TD target equals the immediate reward, whatever the bootstrap
value is. -/
theorem c6_td_target (cfg : Cfg) (m : WM O Z) (task j : ℕ) (next_z : Z)
    (reward : ℚ) :
    td_target cfg m task j next_z reward =
      reward + discount_for cfg task *
        m.Q next_z (m.piS j next_z task) task QMode.min true ∧
    (discount_for cfg task = 0 →
      td_target cfg m task j next_z reward = reward) := by
  refine ⟨rfl, fun h => ?_⟩
  rw [td_target, h]
  ring

/-- Witness for C6 at a concrete zero-discount configuration. -/
theorem c6_td_target_witness :
    td_target { cfg0 with discount_min := 0, discount_max := 0 } wm0 0 0 () 7 = 7 := by
  refine (c6_td_target _ wm0 0 0 () 7).2 ?_
  norm_num [discount_for, cfg0, discount_single, get_discount, clampQ]

/-- Claim C7: with no hardcoded override, `_get_discount` computes
`clamp((frac - 1) / frac, discount_min, discount_max)` with
`frac = episode_length / discount_denom`; at `episode_length =
discount_denom` this is `clamp(0, ...)`, and as the episode length grows it
approaches `clamp(1, ...)` (from below, within any `ε`). -/
theorem c7_get_discount_heuristic (cfg : Cfg) (h0 : cfg.discount_hardcoded = 0)
    (hd : 0 < cfg.discount_denom) :
    (∀ ep : ℚ, get_discount cfg ep =
      clampQ ((ep / cfg.discount_denom - 1) / (ep / cfg.discount_denom))
        cfg.discount_min cfg.discount_max) ∧
    get_discount cfg cfg.discount_denom =
      clampQ 0 cfg.discount_min cfg.discount_max ∧
    ∀ ε : ℚ, 0 < ε → ∃ N : ℕ, ∀ ep : ℕ, N ≤ ep →
      clampQ 1 cfg.discount_min cfg.discount_max - ε < get_discount cfg (ep : ℚ) ∧
      get_discount cfg (ep : ℚ) ≤ clampQ 1 cfg.discount_min cfg.discount_max := by
  have hform : ∀ ep : ℚ, get_discount cfg ep =
      clampQ ((ep / cfg.discount_denom - 1) / (ep / cfg.discount_denom))
        cfg.discount_min cfg.discount_max := by
    intro ep
    simp [get_discount, clampQ, h0]
  refine ⟨hform, ?_, ?_⟩
  · rw [hform, div_self hd.ne']
    norm_num
  · intro ε hε
    obtain ⟨N, hN⟩ := exists_nat_gt (cfg.discount_denom / ε + 1)
    refine ⟨N, fun ep hep => ?_⟩
    have hepQ : cfg.discount_denom / ε + 1 < (ep : ℚ) :=
      lt_of_lt_of_le hN (by exact_mod_cast hep)
    have hdivpos : 0 < cfg.discount_denom / ε := div_pos hd hε
    have hep0 : (0 : ℚ) < (ep : ℚ) := by linarith
    set x := ((ep : ℚ) / cfg.discount_denom - 1) / ((ep : ℚ) / cfg.discount_denom)
      with hx
    have hxeq : 1 - x = cfg.discount_denom / (ep : ℚ) := by
      rw [hx]
      field_simp
    have hxlt : 1 - x < ε := by
      rw [hxeq, div_lt_iff₀ hep0]
      have h1 : cfg.discount_denom / ε < (ep : ℚ) := by linarith
      have h2 : cfg.discount_denom / ε * ε = cfg.discount_denom :=
        div_mul_cancel₀ _ hε.ne'
      nlinarith [mul_lt_mul_of_pos_right h1 hε]
    have hxle : x ≤ 1 := by
      have hpos : 0 < cfg.discount_denom / (ep : ℚ) := div_pos hd hep0
      linarith
    constructor
    · have hlip := clampQ_sub_le 1 x cfg.discount_min cfg.discount_max hxle
      rw [hform, ← hx]
      linarith
    · rw [hform, ← hx]
      exact clampQ_mono x 1 _ _ hxle

/-- Witness for C7 at the concrete configuration. -/
theorem c7_get_discount_witness :
    get_discount cfg0 cfg0.discount_denom =
      clampQ 0 cfg0.discount_min cfg0.discount_max :=
  (c7_get_discount_heuristic cfg0 rfl (by norm_num [cfg0])).2.1

/-- Claim C8, counterexample: a nonzero hardcoded discount override is
returned unchanged even when it exceeds `discount_max`, so the construction
invariant `discount_min ≤ discount ≤ discount_max` fails for such a
configuration. -/
theorem c8_counterexample :
    get_discount { cfg0 with discount_hardcoded := 5 } 500 = 5 ∧
    ¬ (get_discount { cfg0 with discount_hardcoded := 5 } 500 ≤
        ({ cfg0 with discount_hardcoded := 5 } : Cfg).discount_max) := by
  constructor
  · norm_num [get_discount, cfg0]
  · norm_num [get_discount, cfg0]

/-- Claim C8 (amended): when no hardcoded override is configured
(`discount_hardcoded = 0`) and `discount_min ≤ discount_max`, every
discount computed at construction — `get_discount` for any episode length,
hence the per-task multitask discounts and the single-task discount — lies
in `[discount_min, discount_max]`; a nonzero override is instead returned
unchanged, with no clamping. -/
theorem c8_discount_in_range (cfg : Cfg) (h0 : cfg.discount_hardcoded = 0)
    (hmm : cfg.discount_min ≤ cfg.discount_max) :
    (∀ ep : ℚ, cfg.discount_min ≤ get_discount cfg ep ∧
      get_discount cfg ep ≤ cfg.discount_max) ∧
    (∀ task : ℕ, cfg.discount_min ≤ discount_of cfg task ∧
      discount_of cfg task ≤ cfg.discount_max) ∧
    (cfg.discount_min ≤ discount_single cfg ∧
      discount_single cfg ≤ cfg.discount_max) ∧
    ∀ cfg2 : Cfg, cfg2.discount_hardcoded ≠ 0 →
      ∀ ep : ℚ, get_discount cfg2 ep = cfg2.discount_hardcoded := by
  have hrange : ∀ ep : ℚ, cfg.discount_min ≤ get_discount cfg ep ∧
      get_discount cfg ep ≤ cfg.discount_max := by
    intro ep
    have : get_discount cfg ep =
        clampQ ((ep / cfg.discount_denom - 1) / (ep / cfg.discount_denom))
          cfg.discount_min cfg.discount_max := by
      simp [get_discount, clampQ, h0]
    rw [this]
    exact ⟨left_le_clampQ _ _ _ hmm, clampQ_le_right _ _ _⟩
  refine ⟨hrange, fun task => hrange _, hrange _, fun cfg2 h2 ep => ?_⟩
  simp [get_discount, h2]

/-- Witness for C8 (amended) at the concrete configuration. -/
theorem c8_discount_in_range_witness :
    cfg0.discount_min ≤ discount_single cfg0 ∧
      discount_single cfg0 ≤ cfg0.discount_max :=
  (c8_discount_in_range cfg0 rfl (by norm_num [cfg0])).2.2.1

/-- Closed form of the `_estimate_value` loop state after `t` steps: the
running return is the discount-weighted sum of decoded rewards along the
rolled-out latents, the discount accumulator is `discount ^ t`, and the
latent is the `t`-step rollout. -/
theorem ev_aux_closed (cfg : Cfg) (m : WM O Z) (task : ℕ) (z : Z)
    (acts : ℕ → Act) (t : ℕ) :
    ev_aux cfg m task z acts t =
      (∑ i ∈ Finset.range t, discount_for cfg task ^ i *
          m.rewardD (rollout m task z acts i) (acts i) task,
        discount_for cfg task ^ t,
        rollout m task z acts t) := by
  induction t with
  | zero => simp [ev_aux, rollout]
  | succ t ih =>
    simp only [ev_aux, ih, Finset.sum_range_succ, rollout, pow_succ]

/-- Claim C1: `_estimate_value` returns the discount-weighted sum over the
horizon of the two-hot-decoded rewards of `(z_t, action_t)` along the
latent rollout `z_{t+1} = next(z_t, action_t)`, plus `discount ^ horizon`
times the ensemble-average Q-value of the final latent and a policy-sampled
action; with identity dynamics, constant reward 1 and horizon 3 this is
`1 + d + d^2 + d^3 * bootstrap` where `d` is the agent's discount. -/
theorem c1_estimate_value :
    (∀ (O Z : Type) (cfg : Cfg) (m : WM O Z) (task j : ℕ) (z : Z)
        (acts : ℕ → Act),
      estimate_value cfg m task j z acts =
        (∑ t ∈ Finset.range cfg.horizon, discount_for cfg task ^ t *
            m.rewardD (rollout m task z acts t) (acts t) task) +
          discount_for cfg task ^ cfg.horizon *
            m.Q (rollout m task z acts cfg.horizon)
              (m.piS j (rollout m task z acts cfg.horizon) task) task
              QMode.avg false) ∧
    ∀ (c : Cfg) (b : ℚ) (task j : ℕ) (acts : ℕ → Act),
      estimate_value
          { c with
            horizon := 3
            multitask := false
            num_samples := 8
            num_elites := 2
            iterations := 1 }
          { wm0 with
            next := fun z _ _ => z
            rewardD := fun _ _ _ => 1
            Q := fun _ _ _ _ _ => b }
          task j () acts =
        1 + discount_single c + discount_single c ^ 2 +
          discount_single c ^ 3 * b := by
  have hgen : ∀ (O Z : Type) (cfg : Cfg) (m : WM O Z) (task j : ℕ) (z : Z)
      (acts : ℕ → Act),
      estimate_value cfg m task j z acts =
        (∑ t ∈ Finset.range cfg.horizon, discount_for cfg task ^ t *
            m.rewardD (rollout m task z acts t) (acts t) task) +
          discount_for cfg task ^ cfg.horizon *
            m.Q (rollout m task z acts cfg.horizon)
              (m.piS j (rollout m task z acts cfg.horizon) task) task
              QMode.avg false := by
    intro O Z cfg m task j z acts
    rw [estimate_value, ev_aux_closed]
  refine ⟨hgen, fun c b task j acts => ?_⟩
  rw [hgen]
  have hd : discount_for
      { c with
        horizon := 3
        multitask := false
        num_samples := 8
        num_elites := 2
        iterations := 1 } task =
      discount_single c := by
    simp [discount_for, discount_single, get_discount]
  simp only [hd, Finset.sum_range_succ, Finset.sum_range_zero]
  ring

/-- Claim C4: the planning mean is initialized to zero at the start of an
episode; otherwise it is the one-step time-shift of the previous mean, with
the last timestep zeroed rather than reused; and the mean produced by the
final refinement iteration is what `_plan` writes back into
`self._prev_mean` for the next call. -/
theorem c4_warm_start (cfg : Cfg) (m : WM O Z) (task : ℕ) (obs : O)
    (t0 eval_mode : Bool) (prev : ℕ → ℕ → ℚ) (noise : ℕ → ℕ → ℕ → ℕ → ℚ)
    (rand_idx : ℕ) (expl_noise : ℕ → ℚ) :
    (∀ t d, init_mean cfg true prev t d = 0) ∧
    (∀ t d, t + 1 < cfg.horizon → init_mean cfg false prev t d = prev (t + 1) d) ∧
    (∀ d, init_mean cfg false prev (cfg.horizon - 1) d = 0) ∧
    (plan cfg m task obs t0 eval_mode prev noise rand_idx expl_noise).prev_mean =
      (plan_loop cfg m task (m.encode obs task) noise cfg.iterations
        (init_state cfg m task t0 prev (m.encode obs task))).mean := by
  refine ⟨fun t d => by simp [init_mean], fun t d ht => ?_, fun d => ?_, rfl⟩
  · rw [init_mean, if_pos ⟨rfl, by omega⟩]
  · rw [init_mean, if_neg]
    rintro ⟨-, h⟩
    omega

/-- Witness for C4 at a concrete two-step horizon. -/
theorem c4_warm_start_witness :
    init_mean { cfg0 with horizon := 2 } false (fun _ _ => 3) 0 0 =
      (fun _ _ => (3 : ℚ)) 1 0 :=
  (c4_warm_start { cfg0 with horizon := 2 } wm0 0 () false false (fun _ _ => 3)
    (fun _ _ _ _ => 0) 0 (fun _ => 0)).2.1 0 0 (by norm_num [cfg0])

/-- Claim C5: every component of the action returned by `_plan` lies in
`[-1, 1]`, for any observation, flags, task, model and random streams —
the returned action is clamped last, after the optional exploration
noise. -/
theorem c5_plan_action_bounded (cfg : Cfg) (m : WM O Z) (task : ℕ) (obs : O)
    (t0 eval_mode : Bool) (prev : ℕ → ℕ → ℚ) (noise : ℕ → ℕ → ℕ → ℕ → ℚ)
    (rand_idx : ℕ) (expl_noise : ℕ → ℚ) (d : ℕ) :
    -1 ≤ (plan cfg m task obs t0 eval_mode prev noise rand_idx expl_noise).a d ∧
    (plan cfg m task obs t0 eval_mode prev noise rand_idx expl_noise).a d ≤ 1 :=
  ⟨left_le_clampQ _ _ _ (by norm_num), clampQ_le_right _ _ _⟩

/-- Generic form of the std invariant for one refinement iteration: after
the clamp the value is in `[min_std, max_std]`; the subsequent multitask
re-mask either leaves it there (mask 1) or zeroes it (mask 0). -/
theorem masked2_new_std_cases (cfg : Cfg) (m : WM O Z) (task : ℕ)
    (score : ℕ → ℚ) (ea : ℕ → ℕ → ℕ → ℚ) (hms : cfg.min_std ≤ cfg.max_std)
    (hmask : ∀ d, m.action_masks task d = 0 ∨ m.action_masks task d = 1)
    (t d : ℕ) :
    (cfg.min_std ≤ masked2 cfg m task (new_std cfg m score ea) t d ∧
      masked2 cfg m task (new_std cfg m score ea) t d ≤ cfg.max_std) ∨
    (cfg.multitask = true ∧ m.action_masks task d = 0 ∧
      masked2 cfg m task (new_std cfg m score ea) t d = 0) := by
  have hin : cfg.min_std ≤ new_std cfg m score ea t d ∧
      new_std cfg m score ea t d ≤ cfg.max_std :=
    ⟨left_le_clampQ _ _ _ hms, clampQ_le_right _ _ _⟩
  by_cases hmt : cfg.multitask
  · rcases hmask d with h0 | h1
    · right
      refine ⟨hmt, h0, ?_⟩
      simp [masked2, hmt, h0]
    · left
      simpa [masked2, hmt, h1] using hin
  · left
    simpa [masked2, hmt] using hin

/-- Claim C2 (amended): in every refinement iteration of `_plan`, after the
clamp every component of `std` lies in `[min_std, max_std]`; after the
multitask re-masking step a component is either still in that interval
(mask 1) or exactly zero (mask 0), so components of masked-out action
dimensions drop below `min_std` whenever `min_std > 0`. -/
theorem c2_std_clamped (cfg : Cfg) (m : WM O Z) (task : ℕ) (z1 : Z)
    (noise : ℕ → ℕ → ℕ → ℚ) (s : PlanState) (hms : cfg.min_std ≤ cfg.max_std)
    (hmask : ∀ d, m.action_masks task d = 0 ∨ m.action_masks task d = 1)
    (t d : ℕ) :
    (cfg.min_std ≤ (plan_iter cfg m task z1 noise s).std t d ∧
      (plan_iter cfg m task z1 noise s).std t d ≤ cfg.max_std) ∨
    (cfg.multitask = true ∧ m.action_masks task d = 0 ∧
      (plan_iter cfg m task z1 noise s).std t d = 0) :=
  masked2_new_std_cases cfg m task _ _ hms hmask t d

/-- Witness for C2 (amended) at a concrete instance. -/
theorem c2_std_clamped_witness :
    (cfg0.min_std ≤
        (plan_iter cfg0 wm0 0 () (fun _ _ _ => 0)
          ⟨fun _ _ => 0, fun _ _ => 1, fun _ _ _ => 0, fun _ => 0,
            fun _ _ _ => 0⟩).std 0 0 ∧
      (plan_iter cfg0 wm0 0 () (fun _ _ _ => 0)
          ⟨fun _ _ => 0, fun _ _ => 1, fun _ _ _ => 0, fun _ => 0,
            fun _ _ _ => 0⟩).std 0 0 ≤ cfg0.max_std) ∨
    (cfg0.multitask = true ∧ wm0.action_masks 0 0 = 0 ∧
      (plan_iter cfg0 wm0 0 () (fun _ _ _ => 0)
          ⟨fun _ _ => 0, fun _ _ => 1, fun _ _ _ => 0, fun _ => 0,
            fun _ _ _ => 0⟩).std 0 0 = 0) :=
  c2_std_clamped cfg0 wm0 0 () (fun _ _ _ => 0)
    ⟨fun _ _ => 0, fun _ _ => 1, fun _ _ _ => 0, fun _ => 0, fun _ _ _ => 0⟩
    (by norm_num [cfg0]) (fun d => Or.inr rfl) 0 0

/-- Claim C2, counterexample: with multitask enabled, `min_std = 1/2` and an
action mask that zeroes dimension 0, the std component after the masking
step of the iteration is 0, strictly below `min_std` — the claimed
invariant fails once the masking step is included. -/
theorem c2_counterexample :
    (plan_iter
        { cfg0 with multitask := true, min_std := 1 / 2 }
        { wm0 with action_masks := fun _ _ => 0 } 0 () (fun _ _ _ => 0)
        ⟨fun _ _ => 0, fun _ _ => 1, fun _ _ _ => 0, fun _ => 0,
          fun _ _ _ => 0⟩).std 0 0 = 0 ∧
    ¬ (({ cfg0 with multitask := true, min_std := 1 / 2 } : Cfg).min_std ≤
        (plan_iter
          { cfg0 with multitask := true, min_std := 1 / 2 }
          { wm0 with action_masks := fun _ _ => 0 } 0 () (fun _ _ _ => 0)
          ⟨fun _ _ => 0, fun _ _ => 1, fun _ _ _ => 0, fun _ => 0,
            fun _ _ _ => 0⟩).std 0 0) := by
  have h : (plan_iter
      { cfg0 with multitask := true, min_std := 1 / 2 }
      { wm0 with action_masks := fun _ _ => 0 } 0 () (fun _ _ _ => 0)
      ⟨fun _ _ => 0, fun _ _ => 1, fun _ _ _ => 0, fun _ => 0,
        fun _ _ _ => 0⟩).std 0 0 = 0 := by
    simp [plan_iter, masked2, cfg0]
  refine ⟨h, ?_⟩
  rw [h]
  norm_num [cfg0]

/-- With a positive `exp` primitive, the normalized elite scores sum to
exactly 1 (in exact arithmetic). -/
theorem norm_score_sum_one (cfg : Cfg) (m : WM O Z) (ev : ℕ → ℚ)
    (hne : (Finset.range cfg.num_elites).Nonempty)
    (hexp : ∀ x, 0 < m.expQ x) :
    wsum cfg (norm_score cfg m ev) = 1 := by
  have hpos : 0 < ∑ e2 ∈ Finset.range cfg.num_elites, softmax_raw cfg m ev e2 :=
    Finset.sum_pos (fun e _ => hexp _) hne
  rw [wsum]
  simp only [norm_score]
  rw [← Finset.sum_div, div_self hpos.ne']

/-- The refit mean is the softmax convex combination of the elite actions
divided by `1 + 1e-9`, so each component lies between the per-component
elite minimum and maximum, both scaled by `1 / (1 + 1e-9)`. -/
theorem new_mean_hull_aux (cfg : Cfg) (m : WM O Z) (ev : ℕ → ℚ)
    (ea : ℕ → ℕ → ℕ → ℚ) (hne : (Finset.range cfg.num_elites).Nonempty)
    (hexp : ∀ x, 0 < m.expQ x) (t d : ℕ) :
    (Finset.range cfg.num_elites).inf' hne (fun e => ea t e d) /
        (1 + eps_denom) ≤
      new_mean cfg (norm_score cfg m ev) ea t d ∧
    new_mean cfg (norm_score cfg m ev) ea t d ≤
      (Finset.range cfg.num_elites).sup' hne (fun e => ea t e d) /
        (1 + eps_denom) := by
  have hpos : 0 < ∑ e2 ∈ Finset.range cfg.num_elites, softmax_raw cfg m ev e2 :=
    Finset.sum_pos (fun e _ => hexp _) hne
  have hw : ∀ e ∈ Finset.range cfg.num_elites, 0 ≤ norm_score cfg m ev e :=
    fun e _ => div_nonneg (hexp _).le hpos.le
  have hs : ∑ e ∈ Finset.range cfg.num_elites, norm_score cfg m ev e = 1 :=
    norm_score_sum_one cfg m ev hne hexp
  have heps : (0 : ℚ) < 1 + eps_denom := by norm_num [eps_denom]
  have hub : ∑ e ∈ Finset.range cfg.num_elites,
      norm_score cfg m ev e * ea t e d ≤
      (Finset.range cfg.num_elites).sup' hne (fun e => ea t e d) :=
    sum_weight_le _ _ _ _ hw hs fun e he => Finset.le_sup' (fun e => ea t e d) he
  have hlb : (Finset.range cfg.num_elites).inf' hne (fun e => ea t e d) ≤
      ∑ e ∈ Finset.range cfg.num_elites, norm_score cfg m ev e * ea t e d :=
    le_sum_weight _ _ _ _ hw hs fun e he => Finset.inf'_le (fun e => ea t e d) he
  have hmean : new_mean cfg (norm_score cfg m ev) ea t d =
      (∑ e ∈ Finset.range cfg.num_elites, norm_score cfg m ev e * ea t e d) /
        (1 + eps_denom) := by
    rw [new_mean, norm_score_sum_one cfg m ev hne hexp]
  rw [hmean]
  exact ⟨(div_le_div_right heps).mpr hlb, (div_le_div_right heps).mpr hub⟩

/-- Hull bound through the optional multitask re-masking of the mean: the
masked-out components of the elite actions are zero, so the masked mean
stays between the scaled per-component elite bounds. -/
theorem masked2_new_mean_hull (cfg : Cfg) (m : WM O Z) (task : ℕ)
    (ev : ℕ → ℚ) (ea : ℕ → ℕ → ℕ → ℚ)
    (hne : (Finset.range cfg.num_elites).Nonempty)
    (hexp : ∀ x, 0 < m.expQ x) (t d : ℕ)
    (hmask1 : cfg.multitask = true →
      m.action_masks task d = 1 ∨
        (m.action_masks task d = 0 ∧ ∀ e, ea t e d = 0)) :
    (Finset.range cfg.num_elites).inf' hne (fun e => ea t e d) /
        (1 + eps_denom) ≤
      masked2 cfg m task (new_mean cfg (norm_score cfg m ev) ea) t d ∧
    masked2 cfg m task (new_mean cfg (norm_score cfg m ev) ea) t d ≤
      (Finset.range cfg.num_elites).sup' hne (fun e => ea t e d) /
        (1 + eps_denom) := by
  by_cases hmt : cfg.multitask
  · rcases hmask1 hmt with h1 | ⟨h0, hz⟩
    · have : masked2 cfg m task (new_mean cfg (norm_score cfg m ev) ea) t d =
          new_mean cfg (norm_score cfg m ev) ea t d := by
        simp [masked2, hmt, h1]
      rw [this]
      exact new_mean_hull_aux cfg m ev ea hne hexp t d
    · have hzero : masked2 cfg m task (new_mean cfg (norm_score cfg m ev) ea)
          t d = 0 := by
        simp [masked2, hmt, h0]
      have hfe : (fun e => ea t e d) = fun _ => (0 : ℚ) := funext fun e => hz e
      rw [hzero, hfe]
      rw [Finset.inf'_const, Finset.sup'_const, zero_div]
      exact ⟨le_refl 0, le_refl 0⟩
  · have : masked2 cfg m task (new_mean cfg (norm_score cfg m ev) ea) t d =
        new_mean cfg (norm_score cfg m ev) ea t d := by
      simp [masked2, hmt]
    rw [this]
    exact new_mean_hull_aux cfg m ev ea hne hexp t d

/-- Claim C9 (amended): in every refinement iteration of `_plan` the refit
mean is the softmax-score-weighted convex combination of the elite action
sequences divided by `1 + 1e-9` (the additive guard in the denominator), so
component-wise it lies between the per-component elite minimum and maximum
each scaled by `1 / (1 + 1e-9)` — the convex hull shrunk by that factor,
not the hull itself. -/
theorem c9_mean_in_scaled_hull (cfg : Cfg) (m : WM O Z) (task : ℕ) (z1 : Z)
    (noise : ℕ → ℕ → ℕ → ℚ) (s : PlanState)
    (hne : (Finset.range cfg.num_elites).Nonempty)
    (hexp : ∀ x, 0 < m.expQ x)
    (hmask : ∀ d, m.action_masks task d = 0 ∨ m.action_masks task d = 1)
    (t d : ℕ) :
    (Finset.range cfg.num_elites).inf' hne
        (fun e => (plan_iter cfg m task z1 noise s).elite_actions t e d) /
        (1 + eps_denom) ≤
      (plan_iter cfg m task z1 noise s).mean t d ∧
    (plan_iter cfg m task z1 noise s).mean t d ≤
      (Finset.range cfg.num_elites).sup' hne
        (fun e => (plan_iter cfg m task z1 noise s).elite_actions t e d) /
        (1 + eps_denom) := by
  refine masked2_new_mean_hull cfg m task _ _ hne hexp t d ?_
  intro hmt
  rcases hmask d with h0 | h1
  · right
    refine ⟨h0, fun e => ?_⟩
    show masked3 cfg m task (merge_actions cfg s noise) t _ d = 0
    simp [masked3, hmt, h0]
  · left
    exact h1

/-- Witness for C9 (amended) at a concrete instance. -/
theorem c9_mean_in_scaled_hull_witness :
    (Finset.range cfg0.num_elites).inf' (by decide)
        (fun e => (plan_iter cfg0 wm0 0 () (fun _ _ _ => 1)
          ⟨fun _ _ => 0, fun _ _ => 1, fun _ _ _ => 0, fun _ => 0,
            fun _ _ _ => 0⟩).elite_actions 0 e 0) / (1 + eps_denom) ≤
      (plan_iter cfg0 wm0 0 () (fun _ _ _ => 1)
        ⟨fun _ _ => 0, fun _ _ => 1, fun _ _ _ => 0, fun _ => 0,
          fun _ _ _ => 0⟩).mean 0 0 :=
  (c9_mean_in_scaled_hull cfg0 wm0 0 () (fun _ _ _ => 1)
    ⟨fun _ _ => 0, fun _ _ => 1, fun _ _ _ => 0, fun _ => 0, fun _ _ _ => 0⟩
    (by decide) (fun x => by norm_num [wm0]) (fun d => Or.inr rfl) 0 0).1

/-- Claim C9, counterexample: with a single elite action equal to 1, the
refit mean is `1 / (1 + 1e-9) < 1`, strictly below the per-component elite
minimum — the weighted mean falls outside the convex hull of the elite
actions because of the `1e-9` denominator guard. -/
theorem c9_counterexample :
    (plan_iter cfg0 wm0 0 () (fun _ _ _ => 1)
        ⟨fun _ _ => 0, fun _ _ => 1, fun _ _ _ => 0, fun _ => 0,
          fun _ _ _ => 0⟩).elite_actions 0 0 0 = 1 ∧
    ¬ ((plan_iter cfg0 wm0 0 () (fun _ _ _ => 1)
        ⟨fun _ _ => 0, fun _ _ => 1, fun _ _ _ => 0, fun _ => 0,
          fun _ _ _ => 0⟩).elite_actions 0 0 0 ≤
      (plan_iter cfg0 wm0 0 () (fun _ _ _ => 1)
        ⟨fun _ _ => 0, fun _ _ => 1, fun _ _ _ => 0, fun _ => 0,
          fun _ _ _ => 0⟩).mean 0 0) := by
  have hea : (plan_iter cfg0 wm0 0 () (fun _ _ _ => 1)
      ⟨fun _ _ => 0, fun _ _ => 1, fun _ _ _ => 0, fun _ => 0,
        fun _ _ _ => 0⟩).elite_actions 0 0 0 = clampQ (0 + 1 * 1) (-1) 1 := rfl
  have hmean : (plan_iter cfg0 wm0 0 () (fun _ _ _ => 1)
      ⟨fun _ _ => 0, fun _ _ => 1, fun _ _ _ => 0, fun _ => 0,
        fun _ _ _ => 0⟩).mean 0 0 =
      (wm0.expQ (cfg0.temperature * (0 - 0)) /
          wm0.expQ (cfg0.temperature * (0 - 0)) * clampQ (0 + 1 * 1) (-1) 1) /
        (wm0.expQ (cfg0.temperature * (0 - 0)) /
          wm0.expQ (cfg0.temperature * (0 - 0)) + eps_denom) := by
    norm_num [plan_iter, masked3, masked2, merge_actions, cand_value,
      estimate_value, ev_aux, nan_to_num, elite_index, topk_idxs, topk_go,
      argmax_in, max_val, softmax_raw, norm_score, wsum, new_mean, cfg0, wm0]
  constructor
  · rw [hea]
    norm_num [clampQ]
  · rw [hea, hmean]
    norm_num [clampQ, eps_denom, wm0]

/-- Claim C10: with planning disabled (`mpc = false`), `act` returns only
element `[0]` of the policy's batched action output — a single action row
of length `action_dim`, whatever the batch size — while with `mpc = true`
the planner path returns one action row per batch element (each of length
`action_dim`). -/
theorem c10_act_batching (cfg : Cfg) (m : WM O Z) (task : ℕ) (o : O)
    (rest : List O) (t0 eval_mode : Bool) (prev : ℕ → ℕ → ℚ)
    (noise : ℕ → ℕ → ℕ → ℕ → ℚ) (rand_idx : ℕ) (expl_noise : ℕ → ℚ) :
    (act { cfg with mpc := false } m task (o :: rest) t0 eval_mode prev noise
        rand_idx expl_noise =
      Sum.inr (action_list { cfg with mpc := false }
        (if eval_mode then m.piMean (m.encode o task) task
          else m.piS 0 (m.encode o task) task)) ∧
      (action_list { cfg with mpc := false }
        (if eval_mode then m.piMean (m.encode o task) task
          else m.piS 0 (m.encode o task) task)).length = cfg.action_dim) ∧
    (act { cfg with mpc := true } m task (o :: rest) t0 eval_mode prev noise
        rand_idx expl_noise =
      Sum.inl ((o :: rest).map fun o2 =>
        action_list { cfg with mpc := true }
          (plan { cfg with mpc := true } m task o2 t0 eval_mode prev noise
            rand_idx expl_noise).a) ∧
      ((o :: rest).map fun o2 =>
        action_list { cfg with mpc := true }
          (plan { cfg with mpc := true } m task o2 t0 eval_mode prev noise
            rand_idx expl_noise).a).length = (o :: rest).length ∧
      (action_list { cfg with mpc := true }
        (plan { cfg with mpc := true } m task o t0 eval_mode prev noise
          rand_idx expl_noise).a).length = cfg.action_dim) := by
  refine ⟨⟨?_, ?_⟩, rfl, List.length_map _ _, ?_⟩
  · rw [act]
    norm_num
  · rw [action_list, List.length_map, List.length_range]
  · rw [action_list, List.length_map, List.length_range]

end Demo3
